import Mathlib

/-
Verification of the go-nepse authentication/token-lifecycle subsystem
(internal/auth: token manager, token codec, deobfuscation engine glue).

The Go source is shallowly embedded:
 - `sliceSkipAt` (the token codec) is translated byte-for-byte from the Go
   loop; Go's `[]byte(s)` is modelled as a `List Char` (all tokens are
   ASCII, so bytes and characters coincide).  A Go run-time panic (slice
   bounds out of range) is modelled as the result `none`.
 - the WASM engine's five exported functions are opaque; they are modelled
   as an abstract table of five fallible functions on `Int`, with the
   uint32 argument / int32 result conversions of `call5` made explicit.
 - the manager's state (`accessToken`, `tokenTS`) is a record; time is an
   explicit parameter in nanoseconds (Go `time.Time` / `time.Duration`
   resolution); `tokenTS = none` models the zero `time.Time`.
 - `singleflight.Group.Do` (external library golang.org/x/sync) is
   modelled by its documented contract through a labelled transition
   system: at most one execution of the update body is in flight, later
   callers join the round and share its outcome.  The clock is frozen for
   the duration of one round.
-/

namespace Auth

/-! ## Token codec (`sliceSkipAt`, `sortInts`) -/

/-- Ascending sort of the positions list.  Models `sort.Ints` (and the
hand-rolled insertion sort `sortInts` of the sibling version of the file),
both of which sort a slice of ints in ascending order. -/
def sortInts (a : List Int) : List Int :=
  List.insertionSort (· ≤ ·) a

/-- One pass of the copy loop of `sliceSkipAt`.  `b` is the byte slice,
`prev` the cursor.  For each position `p`: out-of-range positions are
skipped (`continue`); otherwise Go appends `b[prev:p]`, which panics when
`prev > p` (that slicing is out of range) — the panic is modelled as
`none`; afterwards `prev` becomes `p+1`.  After the loop Go appends
`b[prev:]`. -/
def skipAtLoop (b : List Char) : List Int → Nat → Option (List Char)
  | [], prev => some (b.drop prev)
  | p :: rest, prev =>
    if p < 0 ∨ (b.length : Int) ≤ p then
      skipAtLoop b rest prev
    else if p.toNat < prev then
      none
    else
      match skipAtLoop b rest (p.toNat + 1) with
      | none => none
      | some out => some ((b.drop prev).take (p.toNat - prev) ++ out)

/-- Translation of Go `sliceSkipAt(s string, positions ...int) string`:
if the position list is empty the input is returned unchanged, otherwise
the positions are copied, sorted ascending, and a single left-to-right
pass copies all bytes except those at listed in-range positions.
`none` models a Go run-time panic. -/
def sliceSkipAt (s : List Char) (positions : List Int) : Option (List Char) :=
  if positions.isEmpty then some s
  else skipAtLoop s (sortInts positions) 0

/-! ## Deobfuscation engine (`tokenParser.indicesFromSalts`) -/

/-- Wraps an integer to Go `uint32` (the conversion `uint64(uint32(a))`
applied to each argument in `call5`). -/
def wrapU32 (x : Int) : Int := x % 4294967296

/-- Interprets an integer as Go `int32` (the conversion `int(int32(res))`
applied to the result in `call5`). -/
def wrapI32 (x : Int) : Int :=
  let r := x % 4294967296
  if r < 2147483648 then r else r - 4294967296

/-- The five WASM exports `cdx rdx bdx ndx mdx`.  Each is an opaque pure
function of five integers that can fail (sandbox trap), exactly the shape
`call5` assumes. -/
structure FuncTable where
  cdx : Int → Int → Int → Int → Int → Except String Int
  rdx : Int → Int → Int → Int → Int → Except String Int
  bdx : Int → Int → Int → Int → Int → Except String Int
  ndx : Int → Int → Int → Int → Int → Except String Int
  mdx : Int → Int → Int → Int → Int → Except String Int

/-- Translation of the `call5` helper: arguments pass through `uint32`,
the result through `int32`. -/
def call5 (f : Int → Int → Int → Int → Int → Except String Int)
    (a b c d e : Int) : Except String Int :=
  match f (wrapU32 a) (wrapU32 b) (wrapU32 c) (wrapU32 d) (wrapU32 e) with
  | .error err => .error err
  | .ok res => .ok (wrapI32 res)

/-- The `[5]int` salt array of the token response. -/
structure Salts where
  s1 : Int
  s2 : Int
  s3 : Int
  s4 : Int
  s5 : Int
deriving DecidableEq

/-- Output of the engine: positions for the access token and for the
secondary (refresh) token. -/
structure TokenIndices where
  access : List Int
  refresh : List Int
deriving DecidableEq

/-- Translation of `tokenParser.indicesFromSalts` (straight-line version):
ten `call5` invocations in source order, aborting on the first error. -/
def indicesFromSalts (p : FuncTable) (s : Salts) : Except String TokenIndices :=
  match call5 p.cdx s.s1 s.s2 s.s3 s.s4 s.s5 with
  | .error err => .error err
  | .ok n =>
  match call5 p.rdx s.s1 s.s2 s.s4 s.s3 s.s5 with
  | .error err => .error err
  | .ok l =>
  match call5 p.bdx s.s1 s.s2 s.s4 s.s3 s.s5 with
  | .error err => .error err
  | .ok o =>
  match call5 p.ndx s.s1 s.s2 s.s4 s.s3 s.s5 with
  | .error err => .error err
  | .ok pidx =>
  match call5 p.mdx s.s1 s.s2 s.s4 s.s3 s.s5 with
  | .error err => .error err
  | .ok q =>
  match call5 p.cdx s.s2 s.s1 s.s3 s.s5 s.s4 with
  | .error err => .error err
  | .ok a =>
  match call5 p.rdx s.s2 s.s1 s.s3 s.s4 s.s5 with
  | .error err => .error err
  | .ok b =>
  match call5 p.bdx s.s2 s.s1 s.s4 s.s3 s.s5 with
  | .error err => .error err
  | .ok c =>
  match call5 p.ndx s.s2 s.s1 s.s4 s.s3 s.s5 with
  | .error err => .error err
  | .ok d =>
  match call5 p.mdx s.s2 s.s1 s.s4 s.s3 s.s5 with
  | .error err => .error err
  | .ok e =>
  .ok ⟨[n, l, o, pidx, q], [a, b, c, d, e]⟩

/-- One row of the call tables of the table-driven version of
`indicesFromSalts` (`accessCalls` / `refreshCalls` in
internal/auth/parser.go): a function together with its five arguments. -/
structure Call5Spec where
  fn : Int → Int → Int → Int → Int → Except String Int
  a : Int
  b : Int
  c : Int
  d : Int
  e : Int

/-- The loop `for i, call := range calls { idx, err := p.call5(...) ... }`:
runs the listed calls in order, returning the collected results or the
first error. -/
def runCalls : List Call5Spec → Except String (List Int)
  | [] => .ok []
  | k :: rest =>
    match call5 k.fn k.a k.b k.c k.d k.e with
    | .error err => .error err
    | .ok i =>
      match runCalls rest with
      | .error err => .error err
      | .ok is => .ok (i :: is)

/-- Translation of the table-driven `indicesFromSalts` of
internal/auth/parser.go, whose `accessCalls` and `refreshCalls` tables
list the salt permutation of every call literally. -/
def indicesFromSaltsTable (p : FuncTable) (s : Salts) : Except String TokenIndices :=
  match runCalls
      [⟨p.cdx, s.s1, s.s2, s.s3, s.s4, s.s5⟩,
       ⟨p.rdx, s.s1, s.s2, s.s4, s.s3, s.s5⟩,
       ⟨p.bdx, s.s1, s.s2, s.s4, s.s3, s.s5⟩,
       ⟨p.ndx, s.s1, s.s2, s.s4, s.s3, s.s5⟩,
       ⟨p.mdx, s.s1, s.s2, s.s4, s.s3, s.s5⟩] with
  | .error err => .error err
  | .ok access =>
    match runCalls
        [⟨p.cdx, s.s2, s.s1, s.s3, s.s5, s.s4⟩,
         ⟨p.rdx, s.s2, s.s1, s.s3, s.s4, s.s5⟩,
         ⟨p.bdx, s.s2, s.s1, s.s4, s.s3, s.s5⟩,
         ⟨p.ndx, s.s2, s.s1, s.s4, s.s3, s.s5⟩,
         ⟨p.mdx, s.s2, s.s1, s.s4, s.s3, s.s5⟩] with
    | .error err => .error err
    | .ok refresh => .ok ⟨access, refresh⟩

/-- Modelled from the spec: the permutation table exactly as the spec's
words state it — access positions from function 1 on `(s1,s2,s3,s4,s5)`
and functions 2–5 on `(s1,s2,s4,s3,s5)`; secondary positions from
function 1 on `(s2,s1,s3,s5,s4)` and functions 2–5 each on
`(s2,s1,s4,s3,s5)`.  Written only for comparison with the source
translation `indicesFromSalts`; the two differ in the second secondary
call. -/
def indicesFromSaltsSpec (p : FuncTable) (s : Salts) : Except String TokenIndices :=
  match runCalls
      [⟨p.cdx, s.s1, s.s2, s.s3, s.s4, s.s5⟩,
       ⟨p.rdx, s.s1, s.s2, s.s4, s.s3, s.s5⟩,
       ⟨p.bdx, s.s1, s.s2, s.s4, s.s3, s.s5⟩,
       ⟨p.ndx, s.s1, s.s2, s.s4, s.s3, s.s5⟩,
       ⟨p.mdx, s.s1, s.s2, s.s4, s.s3, s.s5⟩] with
  | .error err => .error err
  | .ok access =>
    match runCalls
        [⟨p.cdx, s.s2, s.s1, s.s3, s.s5, s.s4⟩,
         ⟨p.rdx, s.s2, s.s1, s.s4, s.s3, s.s5⟩,
         ⟨p.bdx, s.s2, s.s1, s.s4, s.s3, s.s5⟩,
         ⟨p.ndx, s.s2, s.s1, s.s4, s.s3, s.s5⟩,
         ⟨p.mdx, s.s2, s.s1, s.s4, s.s3, s.s5⟩] with
    | .error err => .error err
    | .ok refresh => .ok ⟨access, refresh⟩

/-! ## Token cache / manager -/

/-- Nanoseconds per second (`time.Second`). -/
def nsPerSec : Int := 1000000000

/-- Nanoseconds per millisecond (`time.Millisecond`). -/
def nsPerMs : Int := 1000000

/-- `DefaultTokenTTL = 45 * time.Second`, in nanoseconds. -/
def DefaultTokenTTL : Int := 45 * nsPerSec

/-- The JSON structure from /api/authenticate/prove. -/
structure TokenResponse where
  salt1 : Int
  salt2 : Int
  salt3 : Int
  salt4 : Int
  salt5 : Int
  accessToken : String
  refreshToken : String
  serverTime : Int
deriving DecidableEq

/-- The manager's mutable token state: `accessToken` and `tokenTS`.
`tokenTS` is nanoseconds since the epoch; `none` models the zero
`time.Time` (`IsZero`). -/
structure Cache where
  accessToken : String
  tokenTS : Option Int
deriving DecidableEq

/-- Translation of `Manager.isValid`: false when the token is empty or
the timestamp is the zero time, otherwise `time.Since(tokenTS) <
maxUpdatePeriod`, i.e. `now - tokenTS < ttl`. -/
def isValid (c : Cache) (ttl now : Int) : Bool :=
  match c.tokenTS with
  | none => false
  | some ts => if c.accessToken = "" then false else decide (now - ts < ttl)

/-- Translation of `Manager.parseResponse`: runs the engine on the five
salts (wrapping an engine error as "wasm parse: …"), strips the access
token with the computed positions and returns it with
`tr.ServerTime / 1000` (Go `int64` division truncates toward zero, hence
`Int.tdiv`).  The outer `none` models a codec panic crashing the call. -/
def parseResponse (p : FuncTable) (tr : TokenResponse) :
    Option (Except String (String × Int)) :=
  match indicesFromSalts p ⟨tr.salt1, tr.salt2, tr.salt3, tr.salt4, tr.salt5⟩ with
  | .error e => some (.error ("wasm parse: " ++ e))
  | .ok idx =>
    match sliceSkipAt tr.accessToken.data idx.access with
    | none => none
    | some parsed => some (.ok (String.mk parsed, Int.tdiv tr.serverTime 1000))

/-- Translation of the body of `Manager.update` executed by
`sf.Do("token_update", …)` for the caller that drives the round: the
double `isValid` check, the fetch (whose outcome is the explicit argument
`fr`, with an error wrapped as "get token: …"), `parseResponse`, and the
cache replacement under lock — `tokenTS := time.Unix(ts,0)` when
`ts > 0`, else `time.Now()`.  Returns the new cache, the round's error
value, and the number of `NepseHTTP.GetToken` fetches performed; `none`
models a codec panic. -/
def update (p : FuncTable) (ttl now : Int) (c : Cache)
    (fr : Except String TokenResponse) :
    Option (Cache × Except String Unit × Nat) :=
  if isValid c ttl now then some (c, .ok (), 0)
  else
    match fr with
    | .error e => some (c, .error ("get token: " ++ e), 1)
    | .ok tr =>
      match parseResponse p tr with
      | none => none
      | some (.error e) => some (c, .error e, 1)
      | some (.ok (access, ts)) =>
        some (⟨access, some (if 0 < ts then ts * nsPerSec else now)⟩, .ok (), 1)

/-- Translation of `Manager.ForceUpdate`: it simply calls `update`. -/
def ForceUpdate (p : FuncTable) (ttl now : Int) (c : Cache)
    (fr : Except String TokenResponse) :
    Option (Cache × Except String Unit × Nat) :=
  update p ttl now c fr

/-- The epilogue of `Manager.AccessToken` after `update` returns: an
update error is returned as is; on success the cache is re-read and an
empty access token is surfaced as the distinct error
"empty access token after update". -/
def waiterOutcome (c : Cache) (res : Except String Unit) : Except String String :=
  match res with
  | .error e => .error e
  | .ok _ =>
    if c.accessToken = "" then .error "empty access token after update"
    else .ok c.accessToken

/-- Translation of `Manager.AccessToken` for a single caller: serve the
cache without I/O when valid, otherwise run `update` and apply the
epilogue.  The third component counts underlying fetches. -/
def AccessToken (p : FuncTable) (ttl now : Int) (c : Cache)
    (fr : Except String TokenResponse) :
    Option (Cache × Except String String × Nat) :=
  if isValid c ttl now then some (c, .ok c.accessToken, 0)
  else
    match update p ttl now c fr with
    | none => none
    | some (c', res, k) => some (c', waiterOutcome c' res, k)

/-! ## Concurrent round model (singleflight)

`sf.Do("token_update", body)` is modelled by its documented contract: the
first caller to arrive while no execution is in flight runs the body (and
since the cache is not valid, immediately issues the one fetch and
suspends on it); callers arriving while an execution is in flight join it
and share its result.  One acquisition round is a sequence of `join`
events followed by a `complete` event; the clock is frozen during the
round. -/

/-- The fixed context of one acquisition round: the engine table, the
TTL, the (frozen) clock, and the outcome the one in-flight
`NepseHTTP.GetToken` fetch will produce. -/
structure RoundCtx where
  parser : FuncTable
  ttl : Int
  now : Int
  fr : Except String TokenResponse

/-- Global state of the manager plus the callers: the cache, the list of
callers waiting on the in-flight execution (empty = none in flight), the
number of fetches issued so far, and the outcomes delivered to callers. -/
structure Sys where
  cache : Cache
  waiting : List Nat
  fetches : Nat
  results : List (Nat × Except String String)

/-- Events of one acquisition round: caller `i` invokes `AccessToken`, or
the in-flight fetch completes. -/
inductive Ev where
  | join (i : Nat)
  | complete

/-- Labelled transition relation of the round model.  `joinServe` is the
valid-cache fast path of `AccessToken` (no I/O); `joinStart` is a caller
entering `sf.Do` with no execution in flight, whose body re-checks
`isValid`, fails the check and issues the fetch; `joinWait` is a caller
entering `sf.Do` while an execution is in flight, joining it;
`complete` is the fetch returning: the rest of the update body runs, the
cache is replaced (or left untouched on failure) and every waiter
observes the shared result through the `AccessToken` epilogue. -/
inductive Step (P : RoundCtx) : Sys → Ev → Sys → Prop where
  | joinServe (s : Sys) (i : Nat)
      (hv : isValid s.cache P.ttl P.now = true) (hw : s.waiting = []) :
      Step P s (Ev.join i)
        ⟨s.cache, s.waiting, s.fetches, (i, Except.ok s.cache.accessToken) :: s.results⟩
  | joinStart (s : Sys) (i : Nat)
      (hv : isValid s.cache P.ttl P.now = false) (hw : s.waiting = []) :
      Step P s (Ev.join i) ⟨s.cache, [i], s.fetches + 1, s.results⟩
  | joinWait (s : Sys) (i : Nat) (hw : s.waiting ≠ []) :
      Step P s (Ev.join i) ⟨s.cache, i :: s.waiting, s.fetches, s.results⟩
  | complete (s : Sys) (c' : Cache) (res : Except String Unit) (k : Nat)
      (hw : s.waiting ≠ [])
      (hb : update P.parser P.ttl P.now s.cache P.fr = some (c', res, k)) :
      Step P s Ev.complete
        ⟨c', [], s.fetches,
          (s.waiting.map fun i => (i, waiterOutcome c' res)) ++ s.results⟩

/-- Reflexive-transitive closure of `Step`, labelled by the event list. -/
inductive Trace (P : RoundCtx) : Sys → List Ev → Sys → Prop where
  | nil (s : Sys) : Trace P s [] s
  | cons {s s' s'' : Sys} {e : Ev} {es : List Ev}
      (h : Step P s e s') (t : Trace P s' es s'') : Trace P s (e :: es) s''

/-! ## Concrete data used by witnesses and counterexamples -/

/-- Stub engine whose five functions all return the out-of-range
position `-1`, so that the codec strips nothing. -/
def constNeg : FuncTable :=
  ⟨fun _ _ _ _ _ => .ok (-1), fun _ _ _ _ _ => .ok (-1),
   fun _ _ _ _ _ => .ok (-1), fun _ _ _ _ _ => .ok (-1),
   fun _ _ _ _ _ => .ok (-1)⟩

/-- Stub engine function echoing its arguments as decimal digits,
`f(a,b,c,d,e) = a*10000 + b*1000 + c*100 + d*10 + e`, the shape the spec
itself suggests for testing the permutation table. -/
def echoFn (a b c d e : Int) : Except String Int :=
  .ok (a * 10000 + b * 1000 + c * 100 + d * 10 + e)

/-- Stub engine table with all five functions echoing their arguments. -/
def echoTable : FuncTable := ⟨echoFn, echoFn, echoFn, echoFn, echoFn⟩

/-- The scenario response of the spec: salts 10..50, a 12-character
obfuscated token, serverTime 1700000000000 ms. -/
def sampleResp : TokenResponse :=
  ⟨10, 20, 30, 40, 50, "Xa1b2c3d4e5Y", "", 1700000000000⟩

/-- A response whose server timestamp is positive but below one second
(500 ms). -/
def smallTimeResp : TokenResponse :=
  ⟨0, 0, 0, 0, 0, "tok", "", 500⟩

/-- A nominally successful response carrying an empty access token. -/
def emptyTokenResp : TokenResponse :=
  ⟨0, 0, 0, 0, 0, "", "", 0⟩

/-- Round context for the single-flight witness: stub engine, default
TTL, clock frozen at 0, fetch destined to succeed with `sampleResp`. -/
def roundCtx0 : RoundCtx :=
  ⟨constNeg, DefaultTokenTTL, 0, .ok sampleResp⟩

deriving instance DecidableEq for Except

/-! ## Helper lemmas -/

theorem sortInts_sorted (a : List Int) : List.Sorted (· ≤ ·) (sortInts a) :=
  List.sorted_insertionSort _ a

theorem sortInts_perm (a : List Int) : (sortInts a).Perm a :=
  List.perm_insertionSort _ a

theorem sortInts_eq_of_perm {p p' : List Int} (h : p.Perm p') :
    sortInts p = sortInts p' :=
  List.eq_of_perm_of_sorted
    ((sortInts_perm p).trans (h.trans (sortInts_perm p').symm))
    (sortInts_sorted p) (sortInts_sorted p')

theorem sortInts_filter (p : List Int) (q : Int → Bool) :
    (sortInts p).filter q = sortInts (p.filter q) :=
  List.eq_of_perm_of_sorted
    (((sortInts_perm p).filter q).trans (sortInts_perm (p.filter q)).symm)
    ((sortInts_sorted p).filter q) (sortInts_sorted _)

theorem skipAtLoop_filter (b : List Char) :
    ∀ (ps : List Int) (prev : Nat),
      skipAtLoop b (ps.filter fun x => decide (0 ≤ x ∧ x < (b.length : Int))) prev =
        skipAtLoop b ps prev := by
  intro ps
  induction ps with
  | nil => intro prev; rfl
  | cons p rest ih =>
    intro prev
    by_cases h : p < 0 ∨ (b.length : Int) ≤ p
    · have hq : (decide (0 ≤ p ∧ p < (b.length : Int))) = false := by
        simp only [decide_eq_false_iff_not]
        omega
      rw [List.filter_cons, hq]
      simp only [skipAtLoop, if_pos h]
      exact ih prev
    · have hq : (decide (0 ≤ p ∧ p < (b.length : Int))) = true := by
        simp only [decide_eq_true_eq]
        omega
      rw [List.filter_cons, hq]
      simp only [skipAtLoop, if_neg h, ih]

/-! ## Claim theorems: token codec -/

/-- Claim C9 (confirmed): the codec is order-independent — `sliceSkipAt`
applied to any permutation of the position list yields the same result as
applied to the list itself, because the positions are sorted ascending
before the single left-to-right pass. -/
theorem strip_order_independent (s : List Char) (p p' : List Int)
    (h : p.Perm p') :
    sliceSkipAt s p' = sliceSkipAt s p := by
  unfold sliceSkipAt
  by_cases hp : p = []
  · subst hp
    rw [h.symm.eq_nil]
  · have hp' : p' ≠ [] := fun hn => hp (List.Perm.eq_nil (hn ▸ h))
    rw [List.isEmpty_eq_false.mpr hp, List.isEmpty_eq_false.mpr hp',
      sortInts_eq_of_perm h.symm]

/-- Witness for C9 at the spec's own example: `[1,3]` and `[3,1]` on
`"abcde"` agree, both yielding `"ace"`. -/
theorem strip_order_independent_witness :
    sliceSkipAt ['a', 'b', 'c', 'd', 'e'] [3, 1] =
      sliceSkipAt ['a', 'b', 'c', 'd', 'e'] [1, 3] ∧
    sliceSkipAt ['a', 'b', 'c', 'd', 'e'] [1, 3] = some ['a', 'c', 'e'] :=
  ⟨strip_order_independent ['a', 'b', 'c', 'd', 'e'] [1, 3] [3, 1] (by decide),
   by decide⟩

/-- Claim C10 (confirmed): positions outside `[0, len s)` are silently
ignored — `sliceSkipAt` equals itself applied to the in-range positions
only; with an empty position list the input is returned unchanged; and
`sliceSkipAt "abc" [-1, 5, 1]` removes only position 1, yielding
`"ac"`. -/
theorem strip_out_of_range_ignored (s : List Char) (p : List Int) :
    sliceSkipAt s p =
      sliceSkipAt s (p.filter fun x => decide (0 ≤ x ∧ x < (s.length : Int))) ∧
    sliceSkipAt s [] = some s ∧
    sliceSkipAt ['a', 'b', 'c'] [-1, 5, 1] = some ['a', 'c'] := by
  refine ⟨?_, rfl, by decide⟩
  by_cases hp : p = []
  · subst hp; rfl
  by_cases hf : (p.filter fun x => decide (0 ≤ x ∧ x < (s.length : Int))) = []
  · unfold sliceSkipAt
    rw [hf]
    rw [List.isEmpty_eq_false.mpr hp]
    rw [← skipAtLoop_filter s (sortInts p) 0, sortInts_filter, hf]
    rfl
  · unfold sliceSkipAt
    rw [List.isEmpty_eq_false.mpr hp, List.isEmpty_eq_false.mpr hf]
    rw [← sortInts_filter, skipAtLoop_filter]

/-- Claim C4 (code bug): duplicate in-range positions are not idempotent
— they make the Go copy loop slice `b[prev:p]` with `prev > p`, a run-time
panic (modelled as `none`), instead of returning the result obtained with
the duplicates removed. -/
theorem strip_duplicate_positions_panic :
    sliceSkipAt ['a', 'b', 'c'] [1, 1] = none ∧
    sliceSkipAt ['a', 'b', 'c'] [1] = some ['a', 'c'] := by decide

/-! ## Claim theorems: deobfuscation engine -/

/-- Counterexample for C3: with the echo stub engine and salts
`(1,2,3,4,5)` the source's `indicesFromSalts` disagrees with the
permutation table the claim states (they differ in the second secondary
call: the source passes `(s2,s1,s3,s4,s5)` to function 2, the claim says
`(s2,s1,s4,s3,s5)`). -/
theorem engine_permutation_cx :
    indicesFromSalts echoTable ⟨1, 2, 3, 4, 5⟩ ≠
      indicesFromSaltsSpec echoTable ⟨1, 2, 3, 4, 5⟩ := by decide

/-- Claim C3 (amended): for every function table and every salt tuple,
`indicesFromSalts` equals the table-driven version whose rows are
literally: access — function 1 on `(s1,s2,s3,s4,s5)`, functions 2–5 on
`(s1,s2,s4,s3,s5)`; secondary — function 1 on `(s2,s1,s3,s5,s4)`,
function 2 on `(s2,s1,s3,s4,s5)`, functions 3–5 on `(s2,s1,s4,s3,s5)`. -/
theorem engine_permutation_table (p : FuncTable) (s : Salts) :
    indicesFromSalts p s = indicesFromSaltsTable p s := by
  unfold indicesFromSalts indicesFromSaltsTable
  simp only [runCalls]
  cases call5 p.cdx s.s1 s.s2 s.s3 s.s4 s.s5 <;>
  cases call5 p.rdx s.s1 s.s2 s.s4 s.s3 s.s5 <;>
  cases call5 p.bdx s.s1 s.s2 s.s4 s.s3 s.s5 <;>
  cases call5 p.ndx s.s1 s.s2 s.s4 s.s3 s.s5 <;>
  cases call5 p.mdx s.s1 s.s2 s.s4 s.s3 s.s5 <;>
  cases call5 p.cdx s.s2 s.s1 s.s3 s.s5 s.s4 <;>
  cases call5 p.rdx s.s2 s.s1 s.s3 s.s4 s.s5 <;>
  cases call5 p.bdx s.s2 s.s1 s.s4 s.s3 s.s5 <;>
  cases call5 p.ndx s.s2 s.s1 s.s4 s.s3 s.s5 <;>
  cases call5 p.mdx s.s2 s.s1 s.s4 s.s3 s.s5 <;>
  rfl

/-! ## Claim theorems: token cache / manager -/

theorem isValid_token_ne (c : Cache) (ttl now : Int)
    (h : isValid c ttl now = true) : c.accessToken ≠ "" := by
  intro he
  rcases hts : c.tokenTS with _ | ts <;> simp [isValid, hts, he] at h

theorem update_fetch_count (p : FuncTable) (ttl now : Int) (c : Cache)
    (fr : Except String TokenResponse) (hv : isValid c ttl now = false) :
    ∀ c' res k, update p ttl now c fr = some (c', res, k) → k = 1 := by
  intro c' res k h
  rcases fr with e | tr
  · simp [update, hv] at h
    exact h.2.2.symm
  · simp only [update, hv] at h
    rcases hp : parseResponse p tr with _ | v
    · rw [hp] at h; simp at h
    · rcases v with e | ⟨access, ts⟩ <;> rw [hp] at h <;> simp at h
      · exact h.2.2.symm
      · exact h.2.2.symm

/-- Claim C2 (code bug): with a still-valid cached token (here `"old"`,
cached at time 0 and probed at time 0, well inside the 45 s TTL),
`ForceUpdate` performs zero fetches and leaves the cache exactly as it
was, because the body run under `sf.Do` starts with `if m.isValid() {
return nil, nil }` — it neither fetches nor replaces the token, contrary
to the claim and to `ForceUpdate`'s own doc comment ("invalidates the
cache and fetches fresh tokens"). -/
theorem forceUpdate_noop_on_valid_token :
    isValid ⟨"old", some 0⟩ DefaultTokenTTL 0 = true ∧
    ForceUpdate constNeg DefaultTokenTTL 0 ⟨"old", some 0⟩ (.ok sampleResp) =
      some (⟨"old", some 0⟩, .ok (), 0) := ⟨rfl, rfl⟩

/-- Claim C5 (confirmed): in an acquisition round entered with an invalid
cache, a fetch failure or a parse/engine failure leaves the cached state
exactly as it was, the round's result is the error, and that error is
what each waiter of the round observes through the epilogue. -/
theorem update_failure_leaves_cache (p : FuncTable) (ttl now : Int) (c : Cache)
    (hv : isValid c ttl now = false) :
    (∀ e, update p ttl now c (.error e) =
        some (c, .error ("get token: " ++ e), 1)) ∧
    (∀ tr e, parseResponse p tr = some (.error e) →
        update p ttl now c (.ok tr) = some (c, .error e, 1)) ∧
    (∀ e : String, waiterOutcome c (.error e) = .error e) := by
  refine ⟨fun e => ?_, fun tr e hp => ?_, fun e => rfl⟩
  · simp [update, hv]
  · simp [update, hv, hp]

/-- Witness for C5: a concrete failing fetch against an empty cache
leaves the cache empty and surfaces the wrapped error. -/
theorem update_failure_leaves_cache_witness :
    update constNeg DefaultTokenTTL 0 ⟨"", none⟩ (.error "boom") =
      some (⟨"", none⟩, .error ("get token: " ++ "boom"), 1) :=
  (update_failure_leaves_cache constNeg DefaultTokenTTL 0 ⟨"", none⟩ rfl).1 "boom"

/-- Claim C6 (confirmed): the default TTL is 45 s; a cached token is
valid iff it is non-empty and `now - tokenTS < ttl` (a zero timestamp is
never valid); a valid cache is served by `AccessToken` with no fetch,
an invalid one makes any completed `AccessToken` call perform exactly one
fetch; and a token cached at `T` is valid at `T + TTL - 1 ms` and invalid
at `T + TTL + 1 ms`. -/
theorem token_validity_ttl_boundary (p : FuncTable)
    (fr : Except String TokenResponse) (tok : String) (T : Int) (c : Cache)
    (ttl now : Int) :
    DefaultTokenTTL = 45 * nsPerSec ∧
    (isValid ⟨tok, some T⟩ ttl now = true ↔ (tok ≠ "" ∧ now - T < ttl)) ∧
    isValid ⟨tok, none⟩ ttl now = false ∧
    (isValid c ttl now = true →
      AccessToken p ttl now c fr = some (c, .ok c.accessToken, 0)) ∧
    (isValid c ttl now = false →
      ∀ c' r k, AccessToken p ttl now c fr = some (c', r, k) → k = 1) ∧
    (tok ≠ "" →
      isValid ⟨tok, some T⟩ DefaultTokenTTL (T + DefaultTokenTTL - nsPerMs) = true) ∧
    isValid ⟨tok, some T⟩ DefaultTokenTTL (T + DefaultTokenTTL + nsPerMs) = false := by
  refine ⟨rfl, ?_, rfl, fun h => ?_, fun h c' r k hA => ?_, fun ht => ?_, ?_⟩
  · by_cases ht : tok = "" <;> simp [isValid, ht]
  · simp [AccessToken, h]
  · simp only [AccessToken, h, Bool.false_eq_true, if_false] at hA
    rcases hu : update p ttl now c fr with _ | ⟨c2, res, k2⟩ <;> rw [hu] at hA <;>
      simp at hA
    exact hA.2.2 ▸ update_fetch_count p ttl now c fr h c2 res k2 hu
  · simp [isValid, ht, DefaultTokenTTL, nsPerSec, nsPerMs]
    omega
  · by_cases ht : tok = "" <;> simp [isValid, ht, DefaultTokenTTL, nsPerSec, nsPerMs]
    omega

/-- Witness for C6 at `T = 0`, token `"t"`: valid one millisecond before
TTL expiry, invalid one millisecond after, and served unchanged with zero
fetches while valid. -/
theorem token_validity_ttl_boundary_witness :
    isValid ⟨"t", some 0⟩ DefaultTokenTTL (0 + DefaultTokenTTL - nsPerMs) = true ∧
    isValid ⟨"t", some 0⟩ DefaultTokenTTL (0 + DefaultTokenTTL + nsPerMs) = false ∧
    AccessToken constNeg DefaultTokenTTL 0 ⟨"t", some 0⟩ (.ok sampleResp) =
      some (⟨"t", some 0⟩, .ok "t", 0) :=
  ⟨(token_validity_ttl_boundary constNeg (.ok sampleResp) "t" 0 ⟨"t", some 0⟩
      DefaultTokenTTL 0).2.2.2.2.2.1 (by decide),
   (token_validity_ttl_boundary constNeg (.ok sampleResp) "t" 0 ⟨"t", some 0⟩
      DefaultTokenTTL 0).2.2.2.2.2.2,
   (token_validity_ttl_boundary constNeg (.ok sampleResp) "t" 0 ⟨"t", some 0⟩
      DefaultTokenTTL 0).2.2.2.1 rfl⟩

/-- Counterexample for C7: a response with the positive server timestamp
500 ms.  `500 / 1000 = 0` fails the `ts > 0` test, so the code stores the
local clock (12345 ns) — not `serverTime/1000` seconds (0) as the claim
requires for every positive server timestamp. -/
theorem server_time_small_cx :
    update constNeg DefaultTokenTTL 12345 ⟨"", none⟩ (.ok smallTimeResp) =
      some (⟨"tok", some 12345⟩, .ok (), 1) ∧
    (0 : Int) < smallTimeResp.serverTime ∧
    (some 12345 : Option Int) ≠
      some (Int.tdiv smallTimeResp.serverTime 1000 * nsPerSec) :=
  ⟨rfl, by decide, by decide⟩

/-- Claim C7 (amended): in a successful acquisition the parsed timestamp
is `serverTime / 1000` (truncated); the stored acquisition timestamp is
that value (in whole seconds) whenever it is positive — i.e. whenever the
response carries at least one whole second of server time — and the local
clock otherwise (absent, non-positive, or sub-second server time). -/
theorem server_time_anchor (p : FuncTable) (ttl now : Int) (c : Cache)
    (tr : TokenResponse) (access : String) (sec : Int)
    (hv : isValid c ttl now = false)
    (hp : parseResponse p tr = some (.ok (access, sec))) :
    sec = Int.tdiv tr.serverTime 1000 ∧
    update p ttl now c (.ok tr) =
      some (⟨access, some (if 0 < sec then sec * nsPerSec else now)⟩, .ok (), 1) := by
  constructor
  · unfold parseResponse at hp
    rcases h1 : indicesFromSalts p ⟨tr.salt1, tr.salt2, tr.salt3, tr.salt4, tr.salt5⟩
        with e | idx <;> rw [h1] at hp <;> simp at hp
    rcases h2 : sliceSkipAt tr.accessToken.data idx.access with _ | parsed <;>
      rw [h2] at hp <;> simp at hp
    exact hp.2.symm
  · simp [update, hv, hp]

/-- Witness for C7 at the spec's scenario: serverTime 1700000000000 ms is
stored as 1700000000 whole seconds, not as the local clock (0). -/
theorem server_time_anchor_witness :
    (1700000000 : Int) = Int.tdiv sampleResp.serverTime 1000 ∧
    update constNeg DefaultTokenTTL 0 ⟨"", none⟩ (.ok sampleResp) =
      some (⟨"Xa1b2c3d4e5Y",
        some (if (0 : Int) < 1700000000 then 1700000000 * nsPerSec else 0)⟩,
        .ok (), 1) :=
  server_time_anchor constNeg DefaultTokenTTL 0 ⟨"", none⟩ sampleResp
    "Xa1b2c3d4e5Y" 1700000000 rfl rfl

/-- Claim C8 (confirmed): whenever `AccessToken` returns without error
the token is non-empty, and when an update nominally succeeds but leaves
the cached token empty, `AccessToken` returns the distinct error
"empty access token after update" instead. -/
theorem accessToken_ok_nonempty (p : FuncTable) (ttl now : Int) (c : Cache)
    (fr : Except String TokenResponse) :
    (∀ c' t k, AccessToken p ttl now c fr = some (c', .ok t, k) → t ≠ "") ∧
    (∀ c' k, update p ttl now c fr = some (c', .ok (), k) →
      c'.accessToken = "" →
      AccessToken p ttl now c fr =
        some (c', .error "empty access token after update", k)) := by
  constructor
  · intro c' t k hA
    by_cases hv : isValid c ttl now
    · simp [AccessToken, hv] at hA
      exact hA.2.1 ▸ isValid_token_ne c ttl now hv
    · simp only [AccessToken, hv, Bool.false_eq_true, if_false] at hA
      rcases hu : update p ttl now c fr with _ | ⟨c2, res, k2⟩ <;> rw [hu] at hA <;>
        simp at hA
      rcases res with e | u
      · simp [waiterOutcome] at hA
      · by_cases he : c2.accessToken = "" <;> simp [waiterOutcome, he] at hA
        exact hA.2.1 ▸ he
  · intro c' k hu he
    by_cases hv : isValid c ttl now
    · simp [update, hv] at hu
      exact absurd (hu.1 ▸ he) (isValid_token_ne c ttl now hv)
    · simp [AccessToken, hv, hu, waiterOutcome, he]

/-- Witness for C8: a valid cache serves the non-empty token `"tok"`, and
an acquisition that succeeds with an empty access token surfaces the
distinct defensive error. -/
theorem accessToken_ok_nonempty_witness :
    ("tok" : String) ≠ "" ∧
    AccessToken constNeg DefaultTokenTTL 0 ⟨"", none⟩ (.ok emptyTokenResp) =
      some (⟨"", some 0⟩, .error "empty access token after update", 1) :=
  ⟨(accessToken_ok_nonempty constNeg DefaultTokenTTL 0 ⟨"tok", some 0⟩
      (.ok sampleResp)).1 ⟨"tok", some 0⟩ "tok" 0 rfl,
   (accessToken_ok_nonempty constNeg DefaultTokenTTL 0 ⟨"", none⟩
      (.ok emptyTokenResp)).2 ⟨"", some 0⟩ 1 rfl rfl⟩

/-! ## Claim theorems: single-flight round -/

theorem round_joins (P : RoundCtx) :
    ∀ (cs : List Nat) (s sfin : Sys), s.waiting ≠ [] →
      Trace P s (cs.map Ev.join ++ [Ev.complete]) sfin →
      ∃ c' res, sfin = ⟨c', [], s.fetches,
        ((cs.reverse ++ s.waiting).map fun i => (i, waiterOutcome c' res)) ++
          s.results⟩ := by
  intro cs
  induction cs with
  | nil =>
    intro s sfin hw htr
    cases htr with
    | cons hstep htail =>
      cases hstep with
      | complete c' res k hw' hb =>
        cases htail with
        | nil => exact ⟨c', res, by simp⟩
  | cons i cs ih =>
    intro s sfin hw htr
    cases htr with
    | cons hstep htail =>
      cases hstep with
      | joinServe j hv hw' => exact absurd hw' hw
      | joinStart j hv hw' => exact absurd hw' hw
      | joinWait j hw' =>
        obtain ⟨c', res, hfin⟩ := ih _ _ (by simp) htail
        refine ⟨c', res, ?_⟩
        rw [hfin]
        simp [List.reverse_cons, List.append_assoc]

/-- Claim C1 (confirmed): in any round of the singleflight model that
starts from a cache holding no valid token, with any non-empty set of
callers joining while the acquisition is in flight and then the fetch
completing, exactly one underlying fetch is invoked, every caller
receives a result, and all delivered results are one shared outcome of
the round (the same token on success, the same error on failure). -/
theorem single_flight_collapse (P : RoundCtx) (c0 : Cache) (callers : List Nat)
    (sfin : Sys) (hv : isValid c0 P.ttl P.now = false) (hne : callers ≠ [])
    (htr : Trace P ⟨c0, [], 0, []⟩ (callers.map Ev.join ++ [Ev.complete]) sfin) :
    sfin.fetches = 1 ∧
    ∃ out, (∀ i ∈ callers, (i, out) ∈ sfin.results) ∧
      ∀ pr ∈ sfin.results, pr.2 = out := by
  rcases callers with _ | ⟨i1, rest⟩
  · exact absurd rfl hne
  cases htr with
  | cons hstep htail =>
    cases hstep with
    | joinServe j hv' hw' => exact absurd hv' (by simp [hv])
    | joinWait j hw' => exact absurd rfl hw'
    | joinStart j hv' hw' =>
      obtain ⟨c', res, hfin⟩ := round_joins P rest _ _ (by simp) htail
      subst hfin
      refine ⟨rfl, waiterOutcome c' res, fun i hi => ?_, fun pr hpr => ?_⟩
      · simp only [List.append_nil, List.mem_map]
        refine ⟨i, ?_, rfl⟩
        rcases List.mem_cons.mp hi with rfl | hi'
        · simp
        · simp [List.mem_reverse, hi']
      · simp only [List.append_nil, List.mem_map] at hpr
        obtain ⟨j, _, rfl⟩ := hpr
        rfl

/-- Witness for C1: a concrete two-caller round from the empty cache with
a successful fetch — caller 1 starts the round (one fetch), caller 2
joins it, the fetch completes, and both observe the same clean token. -/
theorem single_flight_collapse_witness :
    ∃ sfin, Trace roundCtx0 ⟨⟨"", none⟩, [], 0, []⟩
        ([1, 2].map Ev.join ++ [Ev.complete]) sfin ∧
      sfin.fetches = 1 ∧
      ∃ out, (∀ i ∈ [1, 2], (i, out) ∈ sfin.results) ∧
        ∀ pr ∈ sfin.results, pr.2 = out := by
  have h1 : Step roundCtx0 ⟨⟨"", none⟩, [], 0, []⟩ (Ev.join 1)
      ⟨⟨"", none⟩, [1], 1, []⟩ :=
    Step.joinStart _ 1 rfl rfl
  have h2 : Step roundCtx0 ⟨⟨"", none⟩, [1], 1, []⟩ (Ev.join 2)
      ⟨⟨"", none⟩, [2, 1], 1, []⟩ :=
    Step.joinWait _ 2 (by simp)
  have h3 : Step roundCtx0 ⟨⟨"", none⟩, [2, 1], 1, []⟩ Ev.complete
      ⟨⟨"Xa1b2c3d4e5Y", some 1700000000000000000⟩, [], 1,
        ([2, 1].map fun i =>
          (i, waiterOutcome ⟨"Xa1b2c3d4e5Y", some 1700000000000000000⟩ (.ok ()))) ++ []⟩ :=
    Step.complete _ _ _ 1 (by simp) rfl
  have htr := Trace.cons h1 (Trace.cons h2 (Trace.cons h3 (Trace.nil _)))
  exact ⟨_, htr,
    single_flight_collapse roundCtx0 ⟨"", none⟩ [1, 2] _ rfl (by simp) htr⟩

end Auth
